import Mathlib

/-
Verification development for the PEIP repository (peiplib/lcurve.py and
peiplib/linalg.py).  The numerical code is embedded with exact-real
semantics: NumPy float64 scalars become real numbers, float vectors become
lists of reals, and NumPy 2-D arrays become the untyped matrix type `NMat`
below (a pair of dimensions plus an entry function, mirroring NumPy's
dynamically shaped arrays).  The only place where IEEE-754 behaviour is
observable on the repository's own contract-conforming inputs is the
quotient `lams / mus` of two non-negative column-norm vectors inside
`tikh_gsvd` (0/0 = NaN, x/0 = ±inf) and the elementwise quotient forming
the generalized-singular-value vector in `gsvd`; these divisions are
modelled explicitly by `fdivF` below.  NumPy raises a ValueError when
`np.dot` receives misaligned shapes; inside `tikh_gsvd` this is reachable
for contract-shaped inputs, so matrix/vector products there are modelled
with an explicit shape check (`mulVecE`, `tmulVecE`).
-/

noncomputable section

/-- IEEE-754 double precision machine epsilon, `np.finfo(np.float64).eps`. -/
def machEps : ℝ := 1 / 2 ^ 52

/-- Python's `x or default` for an optional float argument: `None` and `0.0`
are falsy and select the default, every other value is returned itself. -/
def pyOr (x : Option ℝ) (d : ℝ) : ℝ :=
  match x with
  | none => d
  | some v => if v = 0 then d else v

/-- Python truthiness of an optional float: `None` and `0.0` are falsy. -/
def truthyB (x : Option ℝ) : Bool :=
  match x with
  | none => false
  | some v => if v = 0 then false else true

/-- Modelled from the spec: `loglinspace` lives in `peiplib/util.py`, which is
not among the sources under verification.  The spec says it "generates
`npoints` values logarithmically spaced from `α_max` down to `α_min` (first
sample equals `α_max`)".  `LLspec ll` states that contract for a candidate
implementation `ll start stop npoints`: the output has length `npoints`, its
first sample is `start`, its last sample is `stop` (when at least two samples
are produced), and it is descending whenever `stop ≤ start`. -/
def LLspec (ll : ℝ → ℝ → ℕ → List ℝ) : Prop :=
  ∀ a b n,
    (ll a b n).length = n ∧
    (0 < n → (ll a b n).head? = some a) ∧
    (2 ≤ n → (ll a b n).getLast? = some b) ∧
    (b ≤ a → (ll a b n).Chain' (· ≥ ·))

/-- Classification of an IEEE-754 division result of two finite reals. -/
inductive FVal where
  | finite (x : ℝ)
  | posInf
  | negInf
  | nan
  deriving DecidableEq

/-- IEEE-754 division of two finite doubles, keeping track of the special
values: `0/0 = NaN`, `a/0 = ±inf` for `a ≠ 0`, otherwise the real quotient. -/
def fdivF (a b : ℝ) : FVal :=
  if b = 0 then
    if a = 0 then .nan
    else if 0 < a then .posInf
    else .negInf
  else .finite (a / b)

/-- `np.isinf(x) or np.isnan(x)` on a classified division result. -/
def isInfOrNanF : FVal → Bool
  | .finite _ => false
  | _ => true

/-- Euclidean norm of a vector, `numpy.linalg.norm`. -/
def vnorm (v : List ℝ) : ℝ :=
  Real.sqrt ((v.map (fun x => x ^ 2)).sum)

/-- Auxiliary scan for `np.nanargmax` restricted to NaN-free data: carries the
index of the first maximal element seen so far. -/
def nanargmaxAux (best : ℕ) (bestVal : ℝ) (i : ℕ) : List ℝ → ℕ
  | [] => best
  | v :: rest =>
      if bestVal < v then nanargmaxAux i v (i + 1) rest
      else nanargmaxAux best bestVal (i + 1) rest

/-- `np.nanargmax` on NaN-free real data: index of the first maximal element,
`none` on an empty array (NumPy raises a ValueError there). -/
def nanargmax : List ℝ → Option ℕ
  | [] => none
  | v :: rest => some (nanargmaxAux 0 v 1 rest)

/-- Auxiliary scan for `np.argmin` on NaN-free data. -/
def argminAux (best : ℕ) (bestVal : ℝ) (i : ℕ) : List ℝ → ℕ
  | [] => best
  | v :: rest =>
      if v < bestVal then argminAux i v (i + 1) rest
      else argminAux best bestVal (i + 1) rest

/-- `np.argmin` on NaN-free real data (0 on an empty array, not reached on
contract inputs). -/
def argminD (l : List ℝ) : ℕ :=
  match l with
  | [] => 0
  | v :: rest => argminAux 0 v 1 rest

/-- `np.argmax` on NaN-free real data (0 on an empty array, not reached on
contract inputs). -/
def argmaxD (l : List ℝ) : ℕ :=
  match l with
  | [] => 0
  | v :: rest => nanargmaxAux 0 v 1 rest

/-- Untyped dense real matrix, mirroring a NumPy 2-D array: explicit shape
plus an entry function (reads outside the shape are never used by the
embedded code on in-shape indices). -/
structure NMat where
  rows : ℕ
  cols : ℕ
  entry : ℕ → ℕ → ℝ

/-- Matrix transpose, `X.T`. -/
def trN (X : NMat) : NMat :=
  ⟨X.cols, X.rows, fun i j => X.entry j i⟩

/-- Matrix product, `np.dot(X, Y)` for 2-D operands (inner dimensions agree
on every use below). -/
def mulN (X Y : NMat) : NMat :=
  ⟨X.rows, Y.cols, fun i j =>
    ((List.range X.cols).map (fun t => X.entry i t * Y.entry t j)).sum⟩

/-- `X[:, :t]` — the first `t` columns (NumPy slicing clips at the shape). -/
def takeColsN (X : NMat) (t : ℕ) : NMat :=
  ⟨X.rows, min X.cols t, fun i j => X.entry i j⟩

/-- `X[:, t:]` — all columns from `t` on. -/
def dropColsN (X : NMat) (t : ℕ) : NMat :=
  ⟨X.rows, X.cols - t, fun i j => X.entry i (j + t)⟩

/-- `X[a:a+c, :]` — a block of `c` consecutive rows starting at row `a`
(NumPy slicing clips at the shape). -/
def rowBlock (X : NMat) (a c : ℕ) : NMat :=
  ⟨min c (X.rows - a), X.cols, fun i j => X.entry (a + i) j⟩

/-- `np.vstack([X, Y])` (column counts agree on every use below). -/
def vstackN (X Y : NMat) : NMat :=
  ⟨X.rows + Y.rows, max X.cols Y.cols, fun i j =>
    if i < X.rows then X.entry i j else Y.entry (i - X.rows) j⟩

/-- `np.zeros((r, c))`. -/
def zerosN (r c : ℕ) : NMat :=
  ⟨r, c, fun _ _ => 0⟩

/-- `v.reshape(-1, 1)` — a list as a column matrix. -/
def colOf (v : List ℝ) : NMat :=
  ⟨v.length, 1, fun i _ => v.getD i 0⟩

/-- The entries of a column matrix, top to bottom. -/
def colToList (X : NMat) : List ℝ :=
  (List.range X.rows).map (fun i => X.entry i 0)

/-- `np.diag(f)` for a vector `f`: the square diagonal matrix. -/
def diagN (f : List ℝ) : NMat :=
  ⟨f.length, f.length, fun i j => if i = j then f.getD i 0 else 0⟩

/-- `_diagk(X, k)` for `k ≥ 0` (linalg.py): the `k`-th upper diagonal of a
2-D array, `np.diag(X, k)`, of length `min(rows, cols - k)`. -/
def diagkN (X : NMat) (k : ℕ) : List ℝ :=
  (List.range (min X.rows (X.cols - k))).map (fun i => X.entry i (i + k))

/-- Embedding of `numpy.linalg.matrix_rank` with exact-real semantics: the
rank of the matrix over ℝ. -/
def rankN (L : NMat) : ℕ :=
  (Matrix.of (fun (i : Fin L.rows) (j : Fin L.cols) => L.entry i.1 j.1)).rank

/-- Embedding of `numpy.linalg.inv` with exact-real semantics, on the square
shape the callers guarantee (`X` is n-by-n). -/
def invN (X : NMat) : NMat :=
  ⟨X.rows, X.cols, fun i j =>
    if h : i < X.rows ∧ j < X.rows then
      (Matrix.of (fun (a b : Fin X.rows) => X.entry a.1 b.1))⁻¹ ⟨i, h.1⟩ ⟨j, h.2⟩
    else 0⟩

/-- Errors raised by NumPy during an L-curve sweep: `np.dot` with misaligned
shapes raises a ValueError. -/
inductive SweepErr where
  | shapesNotAligned
  deriving DecidableEq

/-- `np.dot(A, v)` for a 2-D `A` and 1-D `v`, with NumPy's shape check. -/
def mulVecE (A : NMat) (v : List ℝ) : Except SweepErr (List ℝ) :=
  if v.length = A.cols then
    .ok ((List.range A.rows).map (fun i =>
      ((List.range A.cols).map (fun j => A.entry i j * v.getD j 0)).sum))
  else .error .shapesNotAligned

/-- `np.dot(A.T, v)`, with NumPy's shape check. -/
def tmulVecE (A : NMat) (v : List ℝ) : Except SweepErr (List ℝ) :=
  if v.length = A.rows then
    .ok ((List.range A.cols).map (fun j =>
      ((List.range A.rows).map (fun i => A.entry i j * v.getD i 0)).sum))
  else .error .shapesNotAligned

/-- Sequencing of a list of fallible computations, propagating the first
error: the effect of a Python `for` loop whose body may raise. -/
def seqE {ε α : Type} : List (Except ε α) → Except ε (List α)
  | [] => .ok []
  | x :: xs =>
      match x with
      | .error e => .error e
      | .ok v =>
          match seqE xs with
          | .error e => .error e
          | .ok vs => .ok (v :: vs)

/-- Embedding of `tikh_svd` (lcurve.py, lines 14-89): the standard-form
L-curve sweep.  `ll` is the `loglinspace` implementation (peiplib.util; see
`LLspec`).  `U`, `s`, `d` are the SVD factors and the data vector; the data
vector is taken 1-D (the source's reshape of a 2-D `d` is the identity on
the 1-D view).  On contract-shaped inputs (`len d = U.rows`,
`len s ≤ U.cols`) no NumPy shape error is reachable in the source, so the
embedding is total. -/
def tikhSvd (ll : ℝ → ℝ → ℕ → List ℝ) (U : NMat) (s d : List ℝ)
    (npoints : ℕ) (alphaMin alphaMax : Option ℝ) :
    List ℝ × List ℝ × List ℝ :=
  let start := pyOr alphaMax (s.headD 0)
  let stop := pyOr alphaMin (max (s.getLastD 0) (s.headD 0 * (16 * machEps)))
  let start' := max start stop
  let stop' := min start stop
  let alphas := ll start' stop' npoints
  let p := s.length
  let dproj := (List.range U.cols).map (fun j =>
    ((List.range U.rows).map (fun i => U.entry i j * d.getD i 0)).sum)
  let dr := vnorm d ^ 2 - vnorm dproj ^ 2
  let dprojP := dproj.take p
  let dps := List.zipWith (· / ·) dprojP s
  let etas := (List.range npoints).map (fun i =>
    let al := alphas.getD i 0
    vnorm (List.zipWith (fun sv x => sv ^ 2 / (sv ^ 2 + al ^ 2) * x) s dps))
  let rhos0 := (List.range npoints).map (fun i =>
    let al := alphas.getD i 0
    vnorm (List.zipWith (fun sv x => (1 - sv ^ 2 / (sv ^ 2 + al ^ 2)) * x) s dprojP))
  let rhos := if U.cols < U.rows ∧ 0 < dr
    then rhos0.map (fun r => Real.sqrt (r ^ 2 + dr)) else rhos0
  (rhos, etas, alphas)

/-- Embedding of the per-column filter-coefficient branch of `tikh_gsvd`
(lcurve.py, lines 187-194).  The source computes `gam = lams[i] / mus[i]` as
a float64 division once per column; `fdivF` classifies that division.  The
branch order is the source's: the `isinf or isnan` test comes first, then
the `(lams == 0) and (mus == 0)` test, then the generic quotient. -/
def filtCoef (lam mu alpha : ℝ) : ℝ :=
  let gam := fdivF lam mu
  if isInfOrNanF gam then 1
  else if lam = 0 ∧ mu = 0 then 0
  else (lam / mu) ^ 2 / ((lam / mu) ^ 2 + alpha ^ 2)

/-- Embedding of the per-α body of the `tikh_gsvd` sweep loop (lcurve.py,
lines 182-201): filter construction, model reconstruction and the two norms.
The `np.dot` calls carry NumPy's shape check (`mulVecE`/`tmulVecE`), because
for an under-determined system (`G.rows < G.cols`, hence `k > 0`) the inner
`np.dot(F, d_proj_scale)` receives misaligned shapes and raises. -/
def gsvdSolveOne (U Xm G L : NMat) (d lams mus : List ℝ) (n k : ℕ)
    (alpha : ℝ) : Except SweepErr (ℝ × ℝ) :=
  let f := (List.range n).map (fun ig =>
    if ig < k then 0 else filtCoef (lams.getD ig 0) (mus.getD ig 0) alpha)
  match tmulVecE (takeColsN U (n - k)) d with
  | .error e => .error e
  | .ok dproj =>
      let dps := List.zipWith (· / ·) dproj ((lams.take n).drop k)
      match mulVecE (diagN f) dps with
      | .error e => .error e
      | .ok fd =>
          match mulVecE (dropColsN (trN (invN Xm)) k) fd with
          | .error e => .error e
          | .ok md =>
              match mulVecE G md with
              | .error e => .error e
              | .ok gm =>
                  match mulVecE L md with
                  | .error e => .error e
                  | .ok lm =>
                      .ok (vnorm (List.zipWith (· - ·) gm d), vnorm lm)

/-- Embedding of `tikh_gsvd` (lcurve.py, lines 92-203): the general-form
L-curve sweep over GSVD factors.  `lams`/`mus` are the column norms of
`LAM`/`MU` computed exactly as in the source
(`sqrt(diag(LAM.T @ LAM))`); `gammas = lams / mus` is used only for the
default bound selection (exact-real division there; the filter itself uses
the explicit float classification `filtCoef`).  Indices into `gammas` are
natural numbers: Python's negative-index wraparound at `p - 1` for a
rank-zero roughening matrix (a degenerate input no theorem below touches)
is not modelled. -/
def tikhGsvd (ll : ℝ → ℝ → ℕ → List ℝ) (U Xm LAM MU : NMat) (d : List ℝ)
    (G L : NMat) (npoints : ℕ) (alphaMin alphaMax : Option ℝ) :
    Except SweepErr (List ℝ × List ℝ × List ℝ) :=
  let m := G.rows
  let n := G.cols
  let p := rankN L
  let lams := (diagkN (mulN (trN LAM) LAM) 0).map Real.sqrt
  let mus := (diagkN (mulN (trN MU) MU) 0).map Real.sqrt
  let gammas := List.zipWith (· / ·) lams mus
  let startStop :=
    if truthyB alphaMin ∧ truthyB alphaMax then
      (alphaMax.getD 0, alphaMin.getD 0)
    else if m ≤ n then
      let i1 := min (n - m) (p - 1)
      let i2 := max (n - m) (p - 1)
      (pyOr alphaMax (gammas.getD i2 0),
       pyOr alphaMin (max (gammas.getD i1 0) (gammas.getD i2 0 * (16 * machEps))))
    else
      (pyOr alphaMax (gammas.getD (p - 1) 0),
       pyOr alphaMin (max (gammas.getD 0 0) (gammas.getD (p - 1) 0 * (16 * machEps))))
  let start' := max startStop.1 startStop.2
  let stop' := min startStop.1 startStop.2
  let alphas := ll start' stop' npoints
  let k := if n < m then 0 else n - m
  match seqE ((List.range npoints).map (fun i =>
    gsvdSolveOne U Xm G L d lams mus n k (alphas.getD i 0))) with
  | .error e => .error e
  | .ok prs => .ok (prs.map Prod.fst, prs.map Prod.snd, alphas)

/-- Errors raised by NumPy inside `corner_maxcurv`: `np.nanargmax` on an
empty (or all-NaN) slice raises a ValueError; with exact-real curvature
data the empty slice is the only reachable case, and it occurs exactly when
fewer than 3 samples are supplied. -/
inductive CurveErr where
  | argmaxOfEmpty
  deriving DecidableEq

/-- Embedding of `corner_maxcurv` (lcurve.py, lines 206-272).  The source
builds `kappa = hstack([0, 1/radii, 0])` and then takes
`np.nanargmax(np.abs(kappa[1:-1]))`; the slice `kappa[1:-1]` is exactly the
interior curvature list built here (one entry per index window
`i, i+1, i+2`).  The returned index — relative to the interior list — is
used unshifted to index `rhos`, `etas`, `alphas`, exactly as in the source. -/
def cornerMaxcurv (rhos etas alphas : List ℝ) :
    Except CurveErr (ℝ × ℝ × ℝ) :=
  let xs := rhos.map Real.log
  let ys := etas.map Real.log
  let kappaInt := (List.range (xs.length - 2)).map (fun i =>
    let x1 := xs.getD i 0
    let x2 := xs.getD (i + 1) 0
    let x3 := xs.getD (i + 2) 0
    let y1 := ys.getD i 0
    let y2 := ys.getD (i + 1) 0
    let y3 := ys.getD (i + 2) 0
    let a := Real.sqrt ((x1 - x2) ^ 2 + (y1 - y2) ^ 2)
    let b := Real.sqrt ((x2 - x3) ^ 2 + (y2 - y3) ^ 2)
    let c := Real.sqrt ((x3 - x1) ^ 2 + (y3 - y1) ^ 2)
    let sp := (a + b + c) / 2
    let area := Real.sqrt (sp * (sp - a) * (sp - b) * (sp - c))
    let radius := a * b * c / (4 * area)
    1 / radius)
  match nanargmax (kappaInt.map (fun v => |v|)) with
  | none => .error .argmaxOfEmpty
  | some iCorner =>
      .ok (rhos.getD iCorner 0, etas.getD iCorner 0, alphas.getD iCorner 0)

/-- Embedding of the MDF fixed-point `while` loop shared verbatim by
`corner_mdf_svd` (lcurve.py, lines 334-342) and `corner_mdf_gsvd` (lines
421-429).  State: current `alpha_next`, current relative `change`, loop
`counter`.  Returns the final alpha, the final change, and the final
counter; the counter equals the number of fixed-point updates performed so
far (the caller seeds it with 1 after the initial update). -/
def mdfLoop (step : ℝ → ℝ) (tol : ℝ) (maxiter : ℕ)
    (a ch : ℝ) (counter : ℕ) : ℝ × ℝ × ℕ :=
  if h : tol < ch ∧ counter < maxiter then
    mdfLoop step tol maxiter (step a) (|step a / a - 1|) (counter + 1)
  else (a, ch, counter)
termination_by maxiter - counter
decreasing_by
  simp_wf
  omega

/-- Embedding of the MDF driver shared by `corner_mdf_svd` and
`corner_mdf_gsvd`: one initial fixed-point update, the `while` loop, then
one final single-point sweep (`fin`) at the last alpha estimate, which
yields the returned `(alpha_corner, rho_corner, eta_corner)` triple.  The
final change and counter are returned alongside as observables of the loop. -/
def mdfCore (step : ℝ → ℝ) (fin : ℝ → ℝ × ℝ × ℝ) (tol : ℝ) (maxiter : ℕ)
    (a0 : ℝ) : (ℝ × ℝ × ℝ) × ℝ × ℕ :=
  let a1 := step a0
  let r := mdfLoop step tol maxiter a1 (|a1 / a0 - 1|) 1
  (fin r.1, r.2.1, r.2.2)

/-- The MDF fixed-point update of `corner_mdf_svd` (lcurve.py, lines
323-332): one single-point standard-form sweep at `alpha`, then the
Belge-Kilmer-Miller update using the origin `(a, b)`. -/
def svdStep (ll : ℝ → ℝ → ℕ → List ℝ) (U : NMat) (s d : List ℝ)
    (a b alpha : ℝ) : ℝ :=
  let res := tikhSvd ll U s d 1 (some alpha) (some alpha)
  let rho := res.1.getD 0 0
  let eta := res.2.1.getD 0 0
  Real.sqrt ((rho / eta) ^ 2 *
    ((Real.logb 10 (eta ^ 2) - b) / (Real.logb 10 (rho ^ 2) - a)))

/-- The final single-point evaluation of `corner_mdf_svd` (lcurve.py, lines
344-346), returning `(alpha_corner, rho_corner, eta_corner)`. -/
def svdFinal (ll : ℝ → ℝ → ℕ → List ℝ) (U : NMat) (s d : List ℝ)
    (alpha : ℝ) : ℝ × ℝ × ℝ :=
  let res := tikhSvd ll U s d 1 (some alpha) (some alpha)
  (res.2.2.getD 0 0, res.1.getD 0 0, res.2.1.getD 0 0)

/-- Embedding of `corner_mdf_svd` (lcurve.py, lines 275-348): coarse 2-point
sweep fixing the origin `(a, b)`, default initial alpha from a 3-point
log subdivision when `alpha_init` is falsy (`None` or `0`), then the MDF
fixed-point iteration. -/
def cornerMdfSvd (ll : ℝ → ℝ → ℕ → List ℝ) (U : NMat) (s d : List ℝ)
    (alphaInit : Option ℝ) (tol : ℝ) (maxiter : ℕ) : ℝ × ℝ × ℝ :=
  let sw := tikhSvd ll U s d 2 none none
  let a := Real.logb 10 (sw.1.getD (argminD sw.2.2) 0 ^ 2)
  let b := Real.logb 10 (sw.2.1.getD (argmaxD sw.2.2) 0 ^ 2)
  let a0 := pyOr alphaInit ((ll (sw.2.2.getD 0 0) (sw.2.2.getD 1 0) 3).getD 1 0)
  (mdfCore (svdStep ll U s d a b) (svdFinal ll U s d) tol maxiter a0).1

/-- The MDF fixed-point update of `corner_mdf_gsvd` (lcurve.py, lines
409-419).  The source would propagate a NumPy exception out of the inner
sweep; that case is unreachable on the contract shapes used by the theorems
below, and is mapped to a default update of 0 here. -/
def gsvdStep (ll : ℝ → ℝ → ℕ → List ℝ) (U Xm LAM MU : NMat) (d : List ℝ)
    (G L : NMat) (a b alpha : ℝ) : ℝ :=
  match tikhGsvd ll U Xm LAM MU d G L 1 (some alpha) (some alpha) with
  | .error _ => 0
  | .ok res =>
      let rho := res.1.getD 0 0
      let eta := res.2.1.getD 0 0
      Real.sqrt ((rho / eta) ^ 2 *
        ((Real.logb 10 (eta ^ 2) - b) / (Real.logb 10 (rho ^ 2) - a)))

/-- The final single-point evaluation of `corner_mdf_gsvd` (lcurve.py, lines
431-432); the unreachable error case is mapped to a default triple. -/
def gsvdFinal (ll : ℝ → ℝ → ℕ → List ℝ) (U Xm LAM MU : NMat) (d : List ℝ)
    (G L : NMat) (alpha : ℝ) : ℝ × ℝ × ℝ :=
  match tikhGsvd ll U Xm LAM MU d G L 1 (some alpha) (some alpha) with
  | .error _ => (0, 0, 0)
  | .ok res => (res.2.2.getD 0 0, res.1.getD 0 0, res.2.1.getD 0 0)

/-- Embedding of `corner_mdf_gsvd` (lcurve.py, lines 351-434); structure
identical to `cornerMdfSvd`, with a 9-point log subdivision (middle sample,
index 4) for the default initial alpha.  The coarse 2-point sweep's
exception case (unreachable on contract shapes) is mapped to empty lists. -/
def cornerMdfGsvd (ll : ℝ → ℝ → ℕ → List ℝ) (U Xm LAM MU : NMat)
    (d : List ℝ) (G L : NMat) (alphaInit : Option ℝ) (tol : ℝ)
    (maxiter : ℕ) : ℝ × ℝ × ℝ :=
  let sw :=
    match tikhGsvd ll U Xm LAM MU d G L 2 none none with
    | .error _ => ([], [], [])
    | .ok t => t
  let a := Real.logb 10 (sw.1.getD (argminD sw.2.2) 0 ^ 2)
  let b := Real.logb 10 (sw.2.1.getD (argmaxD sw.2.2) 0 ^ 2)
  let a0 := pyOr alphaInit ((ll (sw.2.2.getD 0 0) (sw.2.2.getD 1 0) 9).getD 4 0)
  (mdfCore (gsvdStep ll U Xm LAM MU d G L a b)
    (gsvdFinal ll U Xm LAM MU d G L) tol maxiter a0).1

/-- Embedding of `_diagp(Y, X, k)` (linalg.py, lines 102-114) on real data:
columns `j` of `Y` and rows `j` of `X` are rescaled by the unimodular factor
`conj(D[j]) / |D[j]|` at the indices `j` where the `k`-th diagonal entry
`D[j]` of `X` is negative (the imaginary-part condition is vacuous over ℝ,
and the factor is `-1` for a negative real entry). -/
def diagpN (Y X : NMat) (k : ℕ) : NMat × NMat :=
  let D := diagkN X k
  let neg := fun j : ℕ => j < D.length ∧ D.getD j 0 < 0
  (⟨Y.rows, Y.cols, fun i j => if neg j then -Y.entry i j else Y.entry i j⟩,
   ⟨X.rows, X.cols, fun i j => if neg i then -X.entry i j else X.entry i j⟩)

/-- Errors raised by `gsvd` (linalg.py): the explicit
`MatrixColumnMismatch`, NumPy's refusal of `np.zeros` with a negative
dimension (values-only path with `q < m` or `q < n`), and NumPy's broadcast
error on an elementwise quotient of different lengths. -/
inductive GsvdErr where
  | matrixColumnMismatch
  | negativeDimensions
  | broadcastMismatch
  deriving DecidableEq

/-- Result of `gsvd`: either the full composition `(U, V, X, C, S)` or the
generalized-singular-value vector (whose entries are IEEE quotients and may
be infinite). -/
inductive GsvdOut where
  | full (U V X C S : NMat)
  | values (sigma : List FVal)

/-- The body of `gsvd` (linalg.py, lines 271-311) after the column-count
check, parameterized by exact oracles for the two external factorizations:
`qr M = (Q, R)` is `scipy.linalg.qr(M, mode='economic')` and
`csd Q1 Q2 = (U, V, Z, C, S)` is `_csd(Q1, Q2)`.  The claims settled below
do not depend on the numerical content of these oracles. -/
def gsvdBody (qr : NMat → NMat × NMat)
    (csd : NMat → NMat → NMat × NMat × NMat × NMat × NMat)
    (A B : NMat) (fullMatrices computeAll : Bool) :
    Except GsvdErr GsvdOut :=
  let p := A.cols
  let eA := if fullMatrices = false ∧ p < A.rows then
      let qa := qr A
      let da := diagpN qa.1 qa.2 0
      (da.2, some da.1, p)
    else (A, (none : Option NMat), A.rows)
  let eB := if fullMatrices = false ∧ p < B.rows then
      let qb := qr B
      let db := diagpN qb.1 qb.2 0
      (db.2, some db.1, p)
    else (B, (none : Option NMat), B.rows)
  let m := eA.2.2
  let n := eB.2.2
  let qrS := qr (vstackN eA.1 eB.1)
  let res := csd (rowBlock qrS.1 0 m) (rowBlock qrS.1 m n)
  if computeAll then
    let Xc := mulN (trN qrS.2) res.2.2.1
    let U2 := match eA.2.1 with
      | some qa => mulN qa res.1
      | none => res.1
    let V2 := match eB.2.1 with
      | some qb => mulN qb res.2.1
      | none => res.2.1
    .ok (.full U2 V2 Xc res.2.2.2.1 res.2.2.2.2)
  else
    let q := min (m + n) p
    if q < m then .error .negativeDimensions
    else if q < n then .error .negativeDimensions
    else
      let dumA := colToList (vstackN (zerosN (q - m) 1)
        (colOf (diagkN res.2.2.2.1 (q - m))))
      let dumB := colToList (vstackN (colOf (diagkN res.2.2.2.2 0))
        (zerosN (q - n) 1))
      if dumA.length = dumB.length then
        .ok (.values (List.zipWith fdivF dumA dumB))
      else .error .broadcastMismatch

/-- Embedding of `gsvd` (linalg.py, lines 252-311).  The column-count check
of lines 266-269 comes first; everything else — including both external
factorizations — happens only after it succeeds. -/
def gsvdE (qr : NMat → NMat × NMat)
    (csd : NMat → NMat → NMat × NMat × NMat × NMat × NMat)
    (A B : NMat) (fullMatrices computeAll : Bool) :
    Except GsvdErr GsvdOut :=
  if B.cols ≠ A.cols then .error .matrixColumnMismatch
  else gsvdBody qr csd A B fullMatrices computeAll

/-- A concrete `loglinspace` instance satisfying `LLspec`, used to
instantiate theorems at concrete inputs: first sample `a`, remaining
samples `b`. -/
def llW : ℝ → ℝ → ℕ → List ℝ := fun a b n =>
  match n with
  | 0 => []
  | Nat.succ k => a :: List.replicate k b

/-- A concrete (trivial) QR oracle used to instantiate the `gsvd` theorems
at concrete inputs. -/
def qrTriv : NMat → NMat × NMat := fun X => (X, X)

/-- A concrete (trivial) CSD oracle used to instantiate the `gsvd` theorems
at concrete inputs. -/
def csdTriv : NMat → NMat → NMat × NMat × NMat × NMat × NMat :=
  fun Q1 Q2 => (Q1, Q2, Q1, Q1, Q2)

/-- A concrete CSD oracle producing 1-by-1 `C` and `S` blocks of the shape
contract, used to instantiate the values-only `gsvd` theorem. -/
def csdW : NMat → NMat → NMat × NMat × NMat × NMat × NMat :=
  fun Q1 Q2 => (Q1, Q2, Q1, ⟨1, 1, fun _ _ => 1⟩, ⟨1, 1, fun _ _ => 0⟩)

/-- The 1-by-1 all-ones matrix, used to instantiate theorems. -/
def one1 : NMat := ⟨1, 1, fun _ _ => 1⟩

lemma nanargmax_exists {l : List ℝ} (h : l ≠ []) : ∃ i, nanargmax l = some i := by
  cases l with
  | nil => exact absurd rfl h
  | cons v rest => exact ⟨_, rfl⟩

lemma chainGeReplicate (b : ℝ) (k : ℕ) :
    (List.replicate k b).Chain' (· ≥ ·) := by
  induction k with
  | zero => simp
  | succ n ih =>
      cases n with
      | zero => simp
      | succ m =>
          rw [List.replicate_succ, List.replicate_succ, List.chain'_cons]
          exact ⟨le_refl b, by rw [← List.replicate_succ]; exact ih⟩

lemma llW_spec : LLspec llW := by
  intro a b n
  refine ⟨?_, ?_, ?_, ?_⟩
  · cases n <;> simp [llW]
  · intro hn
    cases n with
    | zero => omega
    | succ k => simp [llW]
  · intro hn
    cases n with
    | zero => omega
    | succ k =>
        cases k with
        | zero => omega
        | succ m =>
            show (a :: List.replicate (Nat.succ m) b).getLast? = some b
            rw [List.replicate_succ', ← List.cons_append, List.getLast?_concat]
  · intro hab
    cases n with
    | zero => simp [llW]
    | succ k =>
        cases k with
        | zero => simp [llW]
        | succ m =>
            show (a :: List.replicate (Nat.succ m) b).Chain' (· ≥ ·)
            rw [List.replicate_succ, List.chain'_cons]
            exact ⟨hab, by rw [← List.replicate_succ]; exact chainGeReplicate b (m + 1)⟩

/-- Claim C2 (code-bug evidence): at a column with `λ = 0` and `μ = 0` the
`tikh_gsvd` filter coefficient is `1`, not the `0` the spec requires.  The
float quotient `γ = 0/0` is NaN, so the `isinf or isnan` branch (which sets
`f = 1`) fires before the `(λ == 0) and (μ == 0)` branch (which would set
`f = 0`) — that second branch is unreachable. -/
theorem filtCoef_both_zero_is_one : filtCoef 0 0 1 = 1 := by
  simp [filtCoef, fdivF, isInfOrNanF]

/-- Claim C1 (code-bug evidence): on the 3-sample L-curve
`rhos = [1, 2, 4]`, `etas = [4, 2, 1]`, `alphas = [3, 2, 1]` the source
returns the *first* sample `(1, 4, 3)` rather than the middle (only
interior) sample `(2, 2, 2)`: `np.nanargmax` runs over the interior slice
`kappa[1:-1]`, and the resulting interior-relative index is used unshifted
to index the full arrays. -/
theorem cornerMaxcurv_three_returns_first :
    cornerMaxcurv [1, 2, 4] [4, 2, 1] [3, 2, 1] = .ok (1, 4, 3) := by
  have hr : List.range 1 = [0] := rfl
  simp [cornerMaxcurv, nanargmax, nanargmaxAux, hr]

/-- Claim C7: `corner_maxcurv` fails (the `np.nanargmax` call rejects its
empty interior slice) exactly when fewer than 3 samples are supplied; with
3 or more samples it returns a triple. -/
theorem cornerMaxcurv_sample_count (rhos etas alphas : List ℝ) :
    (rhos.length < 3 →
      cornerMaxcurv rhos etas alphas = .error .argmaxOfEmpty) ∧
    (3 ≤ rhos.length → ∃ t, cornerMaxcurv rhos etas alphas = .ok t) := by
  constructor
  · intro h
    have h0 : rhos.length - 2 = 0 := by omega
    simp [cornerMaxcurv, List.length_map, h0, List.range_zero, nanargmax]
  · intro h
    simp only [cornerMaxcurv]
    set kl := (((List.range ((rhos.map Real.log).length - 2)).map _).map
      (fun v : ℝ => |v|)) with hkl
    obtain ⟨i, hi⟩ := nanargmax_exists (l := kl)
      (by rw [hkl]; simp; omega)
    rw [hi]
    exact ⟨_, rfl⟩

/-- Witness for claim C7 at concrete inputs: a 2-sample call fails with the
empty-argmax error and a 3-sample call returns a triple. -/
theorem cornerMaxcurv_sample_count_witness :
    (([1, 2] : List ℝ).length < 3 ∧
      cornerMaxcurv [1, 2] [2, 1] [2, 1] = .error .argmaxOfEmpty) ∧
    (3 ≤ ([1, 2, 3] : List ℝ).length ∧
      ∃ t, cornerMaxcurv [1, 2, 3] [3, 2, 1] [3, 2, 1] = .ok t) :=
  ⟨⟨by norm_num, (cornerMaxcurv_sample_count [1, 2] [2, 1] [2, 1]).1 (by norm_num)⟩,
   ⟨by norm_num, (cornerMaxcurv_sample_count [1, 2, 3] [3, 2, 1] [3, 2, 1]).2 (by norm_num)⟩⟩

lemma sixteenEps_le_one : (16 : ℝ) * machEps ≤ 1 := by
  rw [machEps]
  norm_num

/-- Claim C6: with neither `alpha_min` nor `alpha_max` supplied, the
`tikh_svd` alpha vector is `loglinspace(s[0], max(s[-1], s[0]·16·eps),
npoints)`: `npoints` values descending from `s[0]` (the first sample) down
to `max(s[-1], s[0]·16·eps)` (the last sample, when `npoints ≥ 2`).  The
hypotheses state that `s` is a descending, non-negative singular-value
vector, as produced by an SVD. -/
theorem tikhSvd_default_bounds (ll : ℝ → ℝ → ℕ → List ℝ) (U : NMat)
    (s d : List ℝ) (npoints : ℕ) (hll : LLspec ll)
    (hlast : s.getLastD 0 ≤ s.headD 0) (hpos : 0 ≤ s.headD 0) :
    (tikhSvd ll U s d npoints none none).2.2 =
        ll (s.headD 0) (max (s.getLastD 0) (s.headD 0 * (16 * machEps))) npoints ∧
    (tikhSvd ll U s d npoints none none).2.2.length = npoints ∧
    (0 < npoints →
      (tikhSvd ll U s d npoints none none).2.2.head? = some (s.headD 0)) ∧
    List.Chain' (· ≥ ·) ((tikhSvd ll U s d npoints none none).2.2) ∧
    (2 ≤ npoints →
      (tikhSvd ll U s d npoints none none).2.2.getLast? =
        some (max (s.getLastD 0) (s.headD 0 * (16 * machEps)))) := by
  have hM : max (s.getLastD 0) (s.headD 0 * (16 * machEps)) ≤ s.headD 0 :=
    max_le hlast (mul_le_of_le_one_right hpos sixteenEps_le_one)
  have key : (tikhSvd ll U s d npoints none none).2.2 =
      ll (s.headD 0) (max (s.getLastD 0) (s.headD 0 * (16 * machEps))) npoints := by
    simp only [tikhSvd, pyOr]
    rw [max_eq_left hM, min_eq_right hM]
  obtain ⟨hlen, hhead, hlastS, hchain⟩ :=
    hll (s.headD 0) (max (s.getLastD 0) (s.headD 0 * (16 * machEps))) npoints
  refine ⟨key, ?_, ?_, ?_, ?_⟩
  · rw [key]
    exact hlen
  · intro hn
    rw [key]
    exact hhead hn
  · rw [key]
    exact hchain hM
  · intro hn
    rw [key]
    exact hlastS hn

/-- Witness for claim C6 at a concrete input (`s = [2, 1]`, two samples,
with the concrete `loglinspace` instance `llW`). -/
theorem tikhSvd_default_bounds_witness :
    LLspec llW ∧
    ([2, 1] : List ℝ).getLastD 0 ≤ ([2, 1] : List ℝ).headD 0 ∧
    (0 : ℝ) ≤ ([2, 1] : List ℝ).headD 0 ∧
    (tikhSvd llW one1 [2, 1] [0] 2 none none).2.2 =
      llW (([2, 1] : List ℝ).headD 0)
        (max (([2, 1] : List ℝ).getLastD 0)
          (([2, 1] : List ℝ).headD 0 * (16 * machEps))) 2 :=
  ⟨llW_spec, by norm_num, by norm_num,
    (tikhSvd_default_bounds llW one1 [2, 1] [0] 2 llW_spec (by norm_num)
      (by norm_num)).1⟩

/-- Claim C10: at the public interface a `0` (or `0.0`) value for an
optional alpha parameter is indistinguishable from omitting it — Python
truthiness makes `x or default` and `if not x` treat `0.0` like `None`.
This holds for both bounds of `tikh_svd` and `tikh_gsvd` and for the
initial alpha of `corner_mdf_svd` and `corner_mdf_gsvd`. -/
theorem zeroAlpha_equals_omitted (ll : ℝ → ℝ → ℕ → List ℝ)
    (U Xm LAM MU G L : NMat) (s d : List ℝ) (npoints maxiter : ℕ)
    (o : Option ℝ) (tol : ℝ) :
    tikhSvd ll U s d npoints o (some 0) = tikhSvd ll U s d npoints o none ∧
    tikhSvd ll U s d npoints (some 0) o = tikhSvd ll U s d npoints none o ∧
    tikhGsvd ll U Xm LAM MU d G L npoints o (some 0) =
      tikhGsvd ll U Xm LAM MU d G L npoints o none ∧
    tikhGsvd ll U Xm LAM MU d G L npoints (some 0) o =
      tikhGsvd ll U Xm LAM MU d G L npoints none o ∧
    cornerMdfSvd ll U s d (some 0) tol maxiter =
      cornerMdfSvd ll U s d none tol maxiter ∧
    cornerMdfGsvd ll U Xm LAM MU d G L (some 0) tol maxiter =
      cornerMdfGsvd ll U Xm LAM MU d G L none tol maxiter := by
  refine ⟨?_, ?_, ?_, ?_, ?_, ?_⟩
  · simp [tikhSvd, pyOr]
  · simp [tikhSvd, pyOr]
  · simp [tikhGsvd, pyOr, truthyB]
  · simp [tikhGsvd, pyOr, truthyB]
  · simp [cornerMdfSvd, pyOr]
  · simp [cornerMdfGsvd, pyOr]

lemma gsvdBody_ne_mismatch (qr : NMat → NMat × NMat)
    (csd : NMat → NMat → NMat × NMat × NMat × NMat × NMat)
    (A B : NMat) (fullMatrices computeAll : Bool) :
    gsvdBody qr csd A B fullMatrices computeAll ≠
      .error .matrixColumnMismatch := by
  simp only [gsvdBody]
  split_ifs <;> simp

/-- Claim C4: `gsvd` raises `MatrixColumnMismatch` exactly when the two
input matrices have different column counts, and it does so before any
computation: the error case holds for every QR and CSD oracle, i.e. without
consulting either factorization.  With matching column counts no
shape-mismatch error is produced on any path (full, economy, values-only). -/
theorem gsvd_column_mismatch (qr : NMat → NMat × NMat)
    (csd : NMat → NMat → NMat × NMat × NMat × NMat × NMat)
    (A B : NMat) (fullMatrices computeAll : Bool) :
    (B.cols ≠ A.cols →
      gsvdE qr csd A B fullMatrices computeAll = .error .matrixColumnMismatch) ∧
    (B.cols = A.cols →
      gsvdE qr csd A B fullMatrices computeAll ≠ .error .matrixColumnMismatch) := by
  constructor
  · intro h
    simp [gsvdE, h]
  · intro h
    simp only [gsvdE, h]
    simp only [ne_eq, not_true_eq_false, if_false]
    exact gsvdBody_ne_mismatch qr csd A B fullMatrices computeAll

/-- Witness for claim C4 at concrete inputs: a 2-column/3-column pair fails
with the mismatch error, a 2-column/2-column pair does not. -/
theorem gsvd_column_mismatch_witness :
    ((⟨2, 3, fun _ _ => 0⟩ : NMat).cols ≠ (⟨2, 2, fun _ _ => 0⟩ : NMat).cols ∧
      gsvdE qrTriv csdTriv ⟨2, 2, fun _ _ => 0⟩ ⟨2, 3, fun _ _ => 0⟩ true true =
        .error .matrixColumnMismatch) ∧
    ((⟨2, 2, fun _ _ => 1⟩ : NMat).cols = (⟨2, 2, fun _ _ => 0⟩ : NMat).cols ∧
      gsvdE qrTriv csdTriv ⟨2, 2, fun _ _ => 0⟩ ⟨2, 2, fun _ _ => 1⟩ true true ≠
        .error .matrixColumnMismatch) :=
  ⟨⟨by norm_num,
      (gsvd_column_mismatch qrTriv csdTriv ⟨2, 2, fun _ _ => 0⟩
        ⟨2, 3, fun _ _ => 0⟩ true true).1 (by norm_num)⟩,
   ⟨rfl,
      (gsvd_column_mismatch qrTriv csdTriv ⟨2, 2, fun _ _ => 0⟩
        ⟨2, 2, fun _ _ => 1⟩ true true).2 rfl⟩⟩

/-- Counterexample for claim C5 as stated: for `A` 2-by-1 and `B` 1-by-1
(equal column counts, but `p < m`), the values-only path does not return a
vector at all — `np.zeros((q - m, 1))` receives the negative dimension
`q - m = -1` and raises. -/
theorem gsvd_values_negdim_counterexample :
    gsvdE qrTriv csdTriv ⟨2, 1, fun _ _ => 0⟩ ⟨1, 1, fun _ _ => 0⟩ true false =
      .error .negativeDimensions := by
  norm_num [gsvdE, gsvdBody]

lemma colToList_pad_top (k : ℕ) (l : List ℝ) :
    colToList (vstackN (zerosN k 1) (colOf l)) = List.replicate k 0 ++ l := by
  apply List.ext_getElem
  · simp [colToList, vstackN, zerosN, colOf]
  · intro i h1 h2
    simp only [colToList, vstackN, zerosN, colOf, List.getElem_map,
      List.getElem_range]
    have hi : i < k + l.length := by
      simpa [colToList, vstackN, zerosN, colOf] using h1
    by_cases hik : i < k
    · rw [if_pos hik, List.getElem_append_left (by simpa using hik)]
      simp
    · rw [if_neg hik, List.getElem_append_right (by simpa using hik)]
      rw [List.getD_eq_getElem]
      · simp
      · omega

lemma colToList_pad_bot (k : ℕ) (l : List ℝ) :
    colToList (vstackN (colOf l) (zerosN k 1)) = l ++ List.replicate k 0 := by
  apply List.ext_getElem
  · simp [colToList, vstackN, zerosN, colOf]
  · intro i h1 h2
    simp only [colToList, vstackN, zerosN, colOf, List.getElem_map,
      List.getElem_range]
    have hi : i < l.length + k := by
      simpa [colToList, vstackN, zerosN, colOf] using h1
    by_cases hik : i < l.length
    · rw [if_pos hik, List.getElem_append_left (by simpa using hik)]
      rw [List.getD_eq_getElem _ _ hik]
    · rw [if_neg hik, List.getElem_append_right (by simpa using hik)]
      simp

lemma diagkN_length (X : NMat) (k : ℕ) :
    (diagkN X k).length = min X.rows (X.cols - k) := by
  simp [diagkN]

/-- Claim C5, amended: when `p ≥ m` and `p ≥ n` (so that `q = min(m+n, p)`
dominates both row counts and the zero paddings are non-negative), the
values-only `gsvd` path returns the length-`q` vector of elementwise IEEE
quotients of the `C`-diagonal zero-padded above and the `S`-diagonal
zero-padded below.  `C` and `S` are whatever the CSD oracle returned for the
two row blocks of the stacked QR factor; the shape hypotheses are the ones
`_csd` guarantees (`C` is m-by-q, `S` is n-by-q). -/
theorem gsvd_values_padded (qr : NMat → NMat × NMat)
    (csd : NMat → NMat → NMat × NMat × NMat × NMat × NMat) (A B C S : NMat)
    (hp : B.cols = A.cols)
    (hCS : (csd (rowBlock (qr (vstackN A B)).1 0 A.rows)
        (rowBlock (qr (vstackN A B)).1 A.rows B.rows)).2.2.2 = (C, S))
    (hCr : C.rows = A.rows)
    (hCc : C.cols = min (A.rows + B.rows) A.cols)
    (hSr : S.rows = B.rows)
    (hSc : S.cols = min (A.rows + B.rows) A.cols)
    (hm : A.rows ≤ min (A.rows + B.rows) A.cols)
    (hn : B.rows ≤ min (A.rows + B.rows) A.cols) :
    gsvdE qr csd A B true false =
      .ok (.values (List.zipWith fdivF
        (List.replicate (min (A.rows + B.rows) A.cols - A.rows) 0 ++
          diagkN C (min (A.rows + B.rows) A.cols - A.rows))
        (diagkN S 0 ++
          List.replicate (min (A.rows + B.rows) A.cols - B.rows) 0))) ∧
    (List.zipWith fdivF
        (List.replicate (min (A.rows + B.rows) A.cols - A.rows) 0 ++
          diagkN C (min (A.rows + B.rows) A.cols - A.rows))
        (diagkN S 0 ++
          List.replicate (min (A.rows + B.rows) A.cols - B.rows) 0)).length =
      min (A.rows + B.rows) A.cols := by
  have hC1 : (csd (rowBlock (qr (vstackN A B)).1 0 A.rows)
      (rowBlock (qr (vstackN A B)).1 A.rows B.rows)).2.2.2.1 = C := by
    rw [hCS]
  have hS1 : (csd (rowBlock (qr (vstackN A B)).1 0 A.rows)
      (rowBlock (qr (vstackN A B)).1 A.rows B.rows)).2.2.2.2 = S := by
    rw [hCS]
  have lenA : (List.replicate (min (A.rows + B.rows) A.cols - A.rows) (0 : ℝ) ++
      diagkN C (min (A.rows + B.rows) A.cols - A.rows)).length =
      min (A.rows + B.rows) A.cols := by
    rw [List.length_append, List.length_replicate, diagkN_length, hCr, hCc,
      Nat.sub_sub_self hm, min_self]
    omega
  have lenB : (diagkN S 0 ++
      List.replicate (min (A.rows + B.rows) A.cols - B.rows) (0 : ℝ)).length =
      min (A.rows + B.rows) A.cols := by
    rw [List.length_append, List.length_replicate, diagkN_length, hSr, hSc,
      Nat.sub_zero, min_eq_left hn]
    omega
  have h1 : ¬ (min (A.rows + B.rows) A.cols < A.rows) := not_lt.mpr hm
  have h2 : ¬ (min (A.rows + B.rows) A.cols < B.rows) := not_lt.mpr hn
  constructor
  · simp [gsvdE, gsvdBody, hp, hC1, hS1, h1, h2, colToList_pad_top,
      colToList_pad_bot, lenA, lenB]
  · rw [List.length_zipWith, lenA, lenB, min_self]

/-- Witness for claim C5 (amended) at concrete inputs: 1-by-1 `A` and `B`
with a CSD oracle returning a contract-shaped `C = [[1]]`, `S = [[0]]`. -/
theorem gsvd_values_padded_witness :
    one1.cols = one1.cols ∧
    one1.rows ≤ min (one1.rows + one1.rows) one1.cols ∧
    gsvdE qrTriv csdW one1 one1 true false =
      .ok (.values (List.zipWith fdivF
        (List.replicate (min (one1.rows + one1.rows) one1.cols - one1.rows) 0 ++
          diagkN ⟨1, 1, fun _ _ => 1⟩ (min (one1.rows + one1.rows) one1.cols - one1.rows))
        (diagkN ⟨1, 1, fun _ _ => 0⟩ 0 ++
          List.replicate (min (one1.rows + one1.rows) one1.cols - one1.rows) 0))) :=
  ⟨rfl, by norm_num [one1],
    (gsvd_values_padded qrTriv csdW one1 one1 ⟨1, 1, fun _ _ => 1⟩
      ⟨1, 1, fun _ _ => 0⟩ rfl rfl rfl (by norm_num [one1]) rfl
      (by norm_num [one1]) (by norm_num [one1]) (by norm_num [one1])).1⟩

lemma mdfLoop_invariant (step : ℝ → ℝ) (tol : ℝ) (maxiter : ℕ) :
    ∀ fuel a ch counter, maxiter - counter ≤ fuel →
      counter ≤ (mdfLoop step tol maxiter a ch counter).2.2 ∧
      (mdfLoop step tol maxiter a ch counter).2.2 ≤ max counter maxiter ∧
      ((mdfLoop step tol maxiter a ch counter).2.1 ≤ tol ∨
        maxiter ≤ (mdfLoop step tol maxiter a ch counter).2.2) := by
  intro fuel
  induction fuel with
  | zero =>
      intro a ch counter hf
      have hc : ¬ (tol < ch ∧ counter < maxiter) := by
        intro hcl
        omega
      rw [mdfLoop, dif_neg hc]
      refine ⟨le_refl _, le_max_left _ _, Or.inr ?_⟩
      show maxiter ≤ counter
      omega
  | succ f ih =>
      intro a ch counter hf
      by_cases hc : tol < ch ∧ counter < maxiter
      · rw [mdfLoop, dif_pos hc]
        obtain ⟨i1, i2, i3⟩ := ih (step a) (|step a / a - 1|) (counter + 1) (by omega)
        have hmx : max (counter + 1) maxiter = maxiter := max_eq_right hc.2
        refine ⟨by omega, ?_, i3⟩
        calc (mdfLoop step tol maxiter (step a) (|step a / a - 1|)
                (counter + 1)).2.2 ≤ max (counter + 1) maxiter := i2
          _ = maxiter := hmx
          _ ≤ max counter maxiter := le_max_right _ _
      · rw [mdfLoop, dif_neg hc]
        refine ⟨le_refl _, le_max_left _ _, ?_⟩
        rcases not_and_or.mp hc with h | h
        · exact Or.inl (le_of_not_lt h)
        · exact Or.inr (le_of_not_lt h)

/-- Claim C8, amended: the MDF fixed-point driver always terminates; for
`maxiter ≥ 1` it performs at most `maxiter` fixed-point updates (counting
the initial update that seeds the loop), at exit either the relative change
is at most `tol` or the iteration budget is exactly exhausted (no error is
raised on exhaustion), the returned triple is the single final evaluation
at the loop's last alpha estimate, and if the very first relative change is
already within `tol` the loop stops after that single initial update. -/
theorem mdfCore_iteration_budget (step : ℝ → ℝ) (fin : ℝ → ℝ × ℝ × ℝ)
    (tol : ℝ) (maxiter : ℕ) (a0 : ℝ) (hmi : 1 ≤ maxiter) :
    (mdfCore step fin tol maxiter a0).2.2 ≤ maxiter ∧
    ((mdfCore step fin tol maxiter a0).2.1 ≤ tol ∨
      (mdfCore step fin tol maxiter a0).2.2 = maxiter) ∧
    (mdfCore step fin tol maxiter a0).1 =
      fin (mdfLoop step tol maxiter (step a0) (|step a0 / a0 - 1|) 1).1 ∧
    (|step a0 / a0 - 1| ≤ tol → (mdfCore step fin tol maxiter a0).2.2 = 1) := by
  obtain ⟨i1, i2, i3⟩ := mdfLoop_invariant step tol maxiter (maxiter - 1)
    (step a0) (|step a0 / a0 - 1|) 1 (by omega)
  have hcnt : (mdfCore step fin tol maxiter a0).2.2 =
      (mdfLoop step tol maxiter (step a0) (|step a0 / a0 - 1|) 1).2.2 := rfl
  have hch : (mdfCore step fin tol maxiter a0).2.1 =
      (mdfLoop step tol maxiter (step a0) (|step a0 / a0 - 1|) 1).2.1 := rfl
  refine ⟨?_, ?_, rfl, ?_⟩
  · rw [hcnt]
    have := max_eq_right hmi
    omega
  · rw [hch, hcnt]
    rcases i3 with h | h
    · exact Or.inl h
    · refine Or.inr ?_
      have h2 := i2
      have := max_eq_right hmi
      omega
  · intro hstop
    have hc : ¬ (tol < |step a0 / a0 - 1| ∧ 1 < maxiter) := by
      intro hcl
      exact absurd hstop (not_le.mpr hcl.1)
    rw [hcnt, mdfLoop, dif_neg hc]

/-- Counterexample for claim C8 as stated: with `maxiter = 0` the driver
still performs its one initial fixed-point update before the loop test, so
the update count is 1, not at most `maxiter = 0`. -/
theorem mdfCore_zero_maxiter_counterexample :
    ¬ ((mdfCore (fun x => x) (fun x => (x, x, x)) 0 0 1).2.2 ≤ 0) := by
  have h : (mdfCore (fun x => x) (fun x => (x, x, x)) 0 0 1).2.2 = 1 := by
    have hc : ¬ ((0 : ℝ) < |(1 : ℝ) / 1 - 1| ∧ 1 < 0) := by
      intro hcl
      omega
    simp only [mdfCore]
    rw [mdfLoop, dif_neg hc]
  omega

/-- Witness for claim C8 (amended) at a concrete input (`maxiter = 1`,
identity step). -/
theorem mdfCore_iteration_budget_witness :
    1 ≤ 1 ∧ (mdfCore (fun x => x) (fun x => (x, x, x)) 1 1 1).2.2 ≤ 1 :=
  ⟨le_refl 1,
    (mdfCore_iteration_budget (fun x => x) (fun x => (x, x, x)) 1 1 1
      (le_refl 1)).1⟩

lemma tmulVecE_ok (A : NMat) (v : List ℝ) (h : v.length = A.rows) :
    ∃ w, tmulVecE A v = .ok w ∧ w.length = A.cols :=
  ⟨(List.range A.cols).map (fun j =>
      ((List.range A.rows).map (fun i => A.entry i j * v.getD i 0)).sum),
   by rw [tmulVecE, if_pos h], by simp⟩

lemma mulVecE_ok (A : NMat) (v : List ℝ) (h : v.length = A.cols) :
    ∃ w, mulVecE A v = .ok w ∧ w.length = A.rows :=
  ⟨(List.range A.rows).map (fun i =>
      ((List.range A.cols).map (fun j => A.entry i j * v.getD j 0)).sum),
   by rw [mulVecE, if_pos h], by simp⟩

lemma seqE_ok_of_forall {ε β : Type} (es : List (Except ε β))
    (h : ∀ e ∈ es, ∃ v, e = .ok v) :
    ∃ vs, seqE es = .ok vs ∧ vs.length = es.length := by
  induction es with
  | nil => exact ⟨[], rfl, rfl⟩
  | cons e es ih =>
      obtain ⟨v, hv⟩ := h e (List.mem_cons_self e es)
      obtain ⟨vs, hvs, hlen⟩ := ih (fun x hx => h x (List.mem_cons_of_mem e hx))
      exact ⟨v :: vs, by simp [seqE, hv, hvs], by simp [hlen]⟩

lemma gsvdSolveOne_ok (U Xm G L : NMat) (d lams mus : List ℝ) (alpha : ℝ)
    (hd : d.length = U.rows) (hU : G.cols ≤ U.cols)
    (hlams : G.cols ≤ lams.length) (hXr : Xm.rows = G.cols)
    (hXc : Xm.cols = G.cols) (hL : L.cols = G.cols) :
    ∃ pr, gsvdSolveOne U Xm G L d lams mus G.cols 0 alpha = .ok pr := by
  obtain ⟨dproj, e1, l1⟩ := tmulVecE_ok (takeColsN U (G.cols - 0)) d
    (by simpa [takeColsN] using hd)
  have l1' : dproj.length = G.cols := by
    rw [l1]
    simp [takeColsN, min_eq_right hU]
  obtain ⟨fd, e2, l2⟩ := mulVecE_ok
    (diagN ((List.range G.cols).map fun ig =>
      if ig < 0 then (0 : ℝ) else filtCoef (lams.getD ig 0) (mus.getD ig 0) alpha))
    (List.zipWith (· / ·) dproj ((lams.take G.cols).drop 0))
    (by simp [diagN, l1', min_eq_left hlams])
  have l2' : fd.length = G.cols := by
    rw [l2]
    simp [diagN]
  obtain ⟨md, e3, l3⟩ := mulVecE_ok (dropColsN (trN (invN Xm)) 0) fd
    (by simp [dropColsN, trN, invN, hXr, l2'])
  have l3' : md.length = G.cols := by
    rw [l3]
    simp [dropColsN, trN, invN, hXc]
  obtain ⟨gm, e4, l4⟩ := mulVecE_ok G md l3'
  obtain ⟨lm, e5, l5⟩ := mulVecE_ok L md (by rw [l3', hL])
  refine ⟨(vnorm (List.zipWith (· - ·) gm d), vnorm lm), ?_⟩
  simp only [gsvdSolveOne, e1, e2, e3, e4, e5]

/-- Claim C9, amended: when both bounds are supplied (nonzero), `tikh_svd`
and `tikh_gsvd` reorder them rather than honour them positionally — the
alpha vector is `loglinspace(max(αmin, αmax), min(αmin, αmax), npoints)`,
descending with first sample `max(αmin, αmax)` — and all three returned
vectors have length `npoints`; for `tikh_gsvd` this additionally requires
the system not to be under-determined (`G.cols ≤ G.rows`), the remaining
hypotheses being the documented GSVD shape contract. -/
theorem explicit_bounds_reordered (ll : ℝ → ℝ → ℕ → List ℝ)
    (U Xm LAM MU G L : NMat) (s d : List ℝ) (npoints : ℕ) (aMin aMax : ℝ)
    (hll : LLspec ll) (ha : aMin ≠ 0) (hb : aMax ≠ 0)
    (hmn : G.cols ≤ G.rows) (hd : d.length = U.rows) (hU : G.cols ≤ U.cols)
    (hLAM : G.cols ≤ LAM.cols) (hXr : Xm.rows = G.cols)
    (hXc : Xm.cols = G.cols) (hL : L.cols = G.cols) :
    ((tikhSvd ll U s d npoints (some aMin) (some aMax)).2.2 =
        ll (max aMin aMax) (min aMin aMax) npoints ∧
      (tikhSvd ll U s d npoints (some aMin) (some aMax)).1.length = npoints ∧
      (tikhSvd ll U s d npoints (some aMin) (some aMax)).2.1.length = npoints ∧
      (tikhSvd ll U s d npoints (some aMin) (some aMax)).2.2.length = npoints ∧
      List.Chain' (· ≥ ·) (ll (max aMin aMax) (min aMin aMax) npoints) ∧
      (0 < npoints →
        (ll (max aMin aMax) (min aMin aMax) npoints).head? =
          some (max aMin aMax))) ∧
    (∃ rhos etas,
      tikhGsvd ll U Xm LAM MU d G L npoints (some aMin) (some aMax) =
        .ok (rhos, etas, ll (max aMin aMax) (min aMin aMax) npoints) ∧
      rhos.length = npoints ∧ etas.length = npoints) := by
  have et1 : (tikhSvd ll U s d npoints (some aMin) (some aMax)).2.2 =
      ll (max aMin aMax) (min aMin aMax) npoints := by
    simp only [tikhSvd, pyOr]
    rw [if_neg hb, if_neg ha, max_comm aMax aMin, min_comm aMax aMin]
  have et2 : (tikhSvd ll U s d npoints (some aMin) (some aMax)).1.length =
      npoints := by
    simp only [tikhSvd]
    split <;> simp
  have et3 : (tikhSvd ll U s d npoints (some aMin) (some aMax)).2.1.length =
      npoints := by
    simp only [tikhSvd]
    simp
  have et4 : (tikhSvd ll U s d npoints (some aMin) (some aMax)).2.2.length =
      npoints := by
    rw [et1]
    exact (hll _ _ _).1
  have hlamlen : ((diagkN (mulN (trN LAM) LAM) 0).map Real.sqrt).length =
      LAM.cols := by
    simp [diagkN_length, mulN, trN]
  have t1 : truthyB (some aMin) = true := by simp [truthyB, ha]
  have t2 : truthyB (some aMax) = true := by simp [truthyB, hb]
  have hk : (if G.cols < G.rows then 0 else G.cols - G.rows) = 0 := by
    split <;> omega
  have hone : ∀ alpha, ∃ pr,
      gsvdSolveOne U Xm G L d ((diagkN (mulN (trN LAM) LAM) 0).map Real.sqrt)
        ((diagkN (mulN (trN MU) MU) 0).map Real.sqrt) G.cols 0 alpha =
        .ok pr := by
    intro alpha
    exact gsvdSolveOne_ok U Xm G L d _ _ alpha hd hU
      (by rw [hlamlen]; exact hLAM) hXr hXc hL
  obtain ⟨prs, hprs, hplen⟩ := seqE_ok_of_forall
    ((List.range npoints).map (fun i =>
      gsvdSolveOne U Xm G L d ((diagkN (mulN (trN LAM) LAM) 0).map Real.sqrt)
        ((diagkN (mulN (trN MU) MU) 0).map Real.sqrt) G.cols 0
        ((ll (max aMax aMin) (min aMax aMin) npoints).getD i 0)))
    (by
      intro e he
      obtain ⟨i, _, rfl⟩ := List.mem_map.mp he
      exact hone _)
  have hplen' : prs.length = npoints := by
    rw [hplen]
    simp
  refine ⟨⟨et1, et2, et3, et4, (hll _ _ _).2.2.2 (min_le_max), fun hn =>
    (hll _ _ _).2.1 hn⟩, ?_⟩
  refine ⟨prs.map Prod.fst, prs.map Prod.snd, ?_, by simp [hplen'],
    by simp [hplen']⟩
  simp only [tikhGsvd, t1, t2, hk, true_and, and_self, if_true,
    Option.getD_some]
  rw [hprs]
  rw [max_comm aMax aMin, min_comm aMax aMin]

/-- Counterexample for claim C9 as stated: for an under-determined system
(`G` is 1-by-2) with both bounds supplied, `tikh_gsvd` does not return
vectors at all — `np.dot(F, d_proj_scale)` inside the sweep receives
misaligned shapes (`F` is 2-by-2, `d_proj_scale` has length 1) and raises. -/
theorem tikhGsvd_underdetermined_counterexample :
    tikhGsvd llW one1 ⟨2, 2, fun _ _ => 1⟩ ⟨1, 2, fun _ _ => 1⟩
      ⟨1, 2, fun _ _ => 1⟩ [1] ⟨1, 2, fun _ _ => 1⟩ ⟨1, 2, fun _ _ => 1⟩ 1
      (some 1) (some 2) = .error .shapesNotAligned := by
  have hr1 : List.range 1 = [0] := rfl
  norm_num [tikhGsvd, gsvdSolveOne, tmulVecE, mulVecE, takeColsN, diagN,
    diagkN, mulN, trN, llW, seqE, truthyB, one1, hr1]

/-- Witness for claim C9 (amended) at concrete 1-by-1 inputs. -/
theorem explicit_bounds_reordered_witness :
    LLspec llW ∧ (1 : ℝ) ≠ 0 ∧ (2 : ℝ) ≠ 0 ∧ one1.cols ≤ one1.rows ∧
    ([1] : List ℝ).length = one1.rows ∧
    (∃ rhos etas,
      tikhGsvd llW one1 one1 one1 one1 [1] one1 one1 1 (some 1) (some 2) =
        .ok (rhos, etas, llW (max 1 2) (min 1 2) 1) ∧
      rhos.length = 1 ∧ etas.length = 1) :=
  ⟨llW_spec, by norm_num, by norm_num, le_refl _, rfl,
    (explicit_bounds_reordered llW one1 one1 one1 one1 one1 one1 [1] [1] 1 1 2
      llW_spec (by norm_num) (by norm_num) (le_refl _) rfl (le_refl _)
      (le_refl _) rfl rfl rfl).2⟩

end
